import Mathlib

/-!
Verification of the `pyphase.discrete` module: discrete relative phase and
automatic multiscale peak detection (AMPD).

Machine floats are modelled as exact rationals.  The arrays handed to the
library are modelled by `NDArr` (a shape together with the row-major flat
data).  `numpy.random.sample((L, N)) + 1` — the random strictly positive
baseline of the local-maxima scalogram — is modelled by an explicit parameter
`r : ℕ → ℕ → ℚ` (row index, column index); a valid sampling satisfies
`1 ≤ r k i` (and `r k i < 2`).  `scipy.signal.detrend` (linear least squares)
is implemented exactly.  The PCA collapse used by `_validate_vectors` on
multi-column inputs is an external collaborator; it is modelled by a parameter
`pca : NDArr → List ℚ`, applied exactly on the 2-dimensional inputs that
`sklearn` accepts.  Python `ValueError`s raised by shape validation are
modelled as `PyErr.validation`; any other runtime failure (for instance
`numpy.argmin` of an empty `gamma` when the signal is too short to produce a
scalogram row) is `PyErr.other`.  `numpy.std(axis=0, ddof=1)` applied to a
single row yields NaN, modelled by `Option.none`; on two or more rows the
test `std == 0` is equivalent to the exact sample variance being zero, and it
is the variance that `npStd` carries.
-/

set_option maxRecDepth 100000

namespace Pyphase

/-- Error model: `PyErr.validation` is the `ValueError` raised by the shape
validation helpers (the spec's ValidationError); `PyErr.other` is any other
Python-level failure. -/
inductive PyErr
  | validation
  | other
deriving DecidableEq

/-- Decidable equality for `Except` results, used to evaluate the pipeline on
concrete inputs. -/
instance exceptDecidableEq {ε α : Type} [DecidableEq ε] [DecidableEq α] :
    DecidableEq (Except ε α) := fun x y =>
  match x, y with
  | Except.ok a, Except.ok b => decidable_of_iff (a = b) (by simp)
  | Except.error e, Except.error f => decidable_of_iff (e = f) (by simp)
  | Except.ok _, Except.error _ => isFalse (fun h => Except.noConfusion h)
  | Except.error _, Except.ok _ => isFalse (fun h => Except.noConfusion h)

/-- A numpy array: shape and row-major flat data (values as exact rationals). -/
structure NDArr where
  shape : List ℕ
  flat : List ℚ
deriving DecidableEq

/-- `np.squeeze`: drop all singleton dimensions; flat data is unchanged. -/
def NDArr.squeeze (x : NDArr) : NDArr :=
  ⟨x.shape.filter (fun d => d ≠ 1), x.flat⟩

/-- `ndim` of an array. -/
def NDArr.ndim (x : NDArr) : ℕ := x.shape.length

/-- Column `j` of a 2-dimensional array (row-major flat data). -/
def NDArr.col (x : NDArr) (j : ℕ) : List ℚ :=
  (List.range (x.shape.getD 0 0)).map (fun i => x.flat.getD (i * x.shape.getD 1 0 + j) 0)

/-- Arithmetic mean (`np.mean`); `0` on the empty list, as `0 / 0 = 0` in `ℚ`. -/
def mean (xs : List ℚ) : ℚ := xs.sum / xs.length

/-- Sample variance with the `N - 1` (ddof=1) denominator. -/
def sampleVar (xs : List ℚ) : ℚ :=
  ((xs.map (fun x => (x - mean xs) ^ 2)).sum) / ((xs.length : ℚ) - 1)

/-- `np.std(..., ddof=1)` along an axis of length `n`, as used by the zero
test of `ampd_peaks`: for `n ≥ 2` the test `std == 0` holds iff the sample
variance is `0`, so the variance is returned; for `n = 1` numpy yields NaN,
modelled as `none` (NaN compares unequal to `0`). -/
def npStd (xs : List ℚ) : Option ℚ :=
  if 2 ≤ xs.length then some (sampleVar xs) else none

/-- `scipy.signal.detrend(data, type='linear')`: subtract the least-squares
straight-line fit over sample indices `0, …, N-1`. -/
def detrend (x : List ℚ) : List ℚ :=
  let N := x.length
  let xbar := mean x
  let tbar := ((N : ℚ) - 1) / 2
  let sxy := ((List.range N).map (fun (i : ℕ) => ((i : ℚ) - tbar) * (x.getD i 0 - xbar))).sum
  let sxx := ((List.range N).map (fun (i : ℕ) => ((i : ℚ) - tbar) ^ 2)).sum
  let beta := sxy / sxx
  (List.range N).map (fun (i : ℕ) => x.getD i 0 - (xbar + beta * ((i : ℚ) - tbar)))

/-- `L = int(np.ceil(N/2) - 1)`, the number of scalogram rows. -/
def numScales (N : ℕ) : ℕ := (N + 1) / 2 - 1

/-- Whether `_local_maxima_scalogram` zeroes cell `(k, i)` (scale `k ≥ 1`,
0-based column `i`) of the detrended data `d`: the cell is inside the checked
band `k + 1 ≤ i ≤ N - k` and `d[i]` strictly exceeds both rolled neighbours
`np.roll(d, k)[i] = d[(i - k) % N]` and `np.roll(d, -k)[i] = d[(i + k) % N]`
(the forward neighbour wraps to `d[0]` at `i = N - k`). -/
def zeroCell (d : List ℚ) (k i : ℕ) : Bool :=
  decide (k + 1 ≤ i) && decide (i ≤ d.length - k) &&
  decide (d.getD (i - k) 0 < d.getD i 0) &&
  decide (d.getD ((i + k) % d.length) 0 < d.getD i 0)

/-- Entry of the local-maxima scalogram at row index `kIdx` (scale
`k = kIdx + 1`) and column `i`: `0` when zeroed, else the sampled baseline
`r kIdx i` (which stands for `np.random.sample() + 1`). -/
def lmsEntry (r : ℕ → ℕ → ℚ) (d : List ℚ) (kIdx i : ℕ) : ℚ :=
  if zeroCell d (kIdx + 1) i then 0 else r kIdx i

/-- One row of the local-maxima scalogram. -/
def lmsRow (r : ℕ → ℕ → ℚ) (d : List ℚ) (kIdx : ℕ) : List ℚ :=
  (List.range d.length).map (lmsEntry r d kIdx)

/-- `_local_maxima_scalogram` applied to already-detrended data `d`, with the
sampled baseline `r`: the `L × N` matrix as a list of rows. -/
def local_maxima_scalogram (r : ℕ → ℕ → ℚ) (d : List ℚ) : List (List ℚ) :=
  (List.range (numScales d.length)).map (lmsRow r d)

/-- Row-wise sums `gamma = lms.sum(axis=1)`. -/
def gammas (r : ℕ → ℕ → ℚ) (d : List ℚ) : List ℚ :=
  (local_maxima_scalogram r d).map List.sum

/-- `np.argmin`: index of the first occurrence of the minimum (`0` on `[]`,
but `ampd_peaks` raises before ever taking the argmin of an empty `gamma`). -/
def argminFirst : List ℚ → ℕ
  | [] => 0
  | x :: rest =>
    let j := argminFirst rest
    if rest.getD j x < x then j + 1 else 0

/-- Column `i` of the first `nRows` scalogram rows, `lms[:nRows][:, i]`. -/
def columnUpTo (r : ℕ → ℕ → ℚ) (d : List ℚ) (nRows i : ℕ) : List ℚ :=
  ((local_maxima_scalogram r d).take nRows).map (fun row => row.getD i 0)

/-- The body of `ampd_peaks` after input validation: detrend, build the
scalogram, take the first global minimiser of the row sums as the
characteristic scale, and return the columns whose ddof=1 standard deviation
over the kept rows is exactly zero.  When the signal is too short to give any
scalogram row (`L = 0`), `np.argmin` raises on the empty `gamma`
(`PyErr.other`, not a validation error). -/
def ampdCore (r : ℕ → ℕ → ℚ) (v : List ℚ) : Except PyErr (List ℕ) :=
  let d := detrend v
  let gam := gammas r d
  if gam.isEmpty then Except.error PyErr.other
  else
    let lam := argminFirst gam
    Except.ok ((List.range d.length).filter
      (fun i => decide (npStd (columnUpTo r d (lam + 1) i) = some 0)))

/-- `_validate_vector`: squeeze, and reject anything still more than
1-dimensional. -/
def validate_vector (x : NDArr) : Except PyErr (List ℚ) :=
  if 1 < x.squeeze.ndim then Except.error PyErr.validation
  else Except.ok x.squeeze.flat

/-- `ampd_peaks` on an arbitrary array: validate to a vector, then run the
AMPD pipeline. -/
def ampd_peaks (r : ℕ → ℕ → ℚ) (x : NDArr) : Except PyErr (List ℕ) := do
  let v ← validate_vector x
  ampdCore r v

/-- The reduction step `_validate_vectors` applies to each signal: squeeze;
keep anything at most 1-dimensional; collapse an `n × m` array through the
external PCA collaborator; `sklearn` rejects 3-or-more-dimensional input with
a `ValueError` (a shape-validation failure). -/
def reduce1D (pca : NDArr → List ℚ) (x : NDArr) : Except PyErr (List ℚ) :=
  if x.squeeze.ndim ≤ 1 then Except.ok x.squeeze.flat
  else if x.squeeze.ndim = 2 then Except.ok (pca x.squeeze)
  else Except.error PyErr.validation

/-- `_validate_vectors`: when `b` is absent, the squeezed `a` must be 2-D
with exactly two columns, which are then split into the two signals; both
signals are then reduced to vectors. -/
def validate_vectors (pca : NDArr → List ℚ) (a : NDArr) (b : Option NDArr) :
    Except PyErr (List ℚ × List ℚ) := do
  let (a1, b1) ←
    match b with
    | none =>
      if a.squeeze.ndim = 2 ∧ a.squeeze.shape.getD 1 0 = 2 then
        Except.ok ((⟨[a.squeeze.shape.getD 0 0], a.squeeze.col 0⟩ : NDArr),
                   (⟨[a.squeeze.shape.getD 0 0], a.squeeze.col 1⟩ : NDArr))
      else Except.error PyErr.validation
    | some b0 => Except.ok (a, b0)
  let va ← reduce1D pca a1
  let vb ← reduce1D pca b1
  Except.ok (va, vb)

/-- `np.diff` on a peak-index array, as signed integers. -/
def npDiff (xs : List ℕ) : List ℤ :=
  List.zipWith (fun (p q : ℕ) => (q : ℤ) - (p : ℤ)) xs xs.tail

/-- The truncation length `min([len(peaks_A), len(peaks_B), len(periods)])`. -/
def truncLen (pA pB : List ℕ) : ℕ :=
  min (min pA.length pB.length) (npDiff pA).length

/-- The relative-phase coefficients `(peaks_A - peaks_B) / periods` on the
truncated arrays; the code's phases are these values times `2π`. -/
def phaseCoeffs (pA pB : List ℕ) : List ℚ :=
  List.zipWith (fun (x : ℕ) (yp : ℕ × ℤ) => ((x : ℚ) - (yp.1 : ℚ)) / (yp.2 : ℚ))
    (pA.take (truncLen pA pB))
    ((pB.take (truncLen pA pB)).zip ((npDiff pA).take (truncLen pA pB)))

/-- The post-peak-detection part of `relative_phase`: truncate, index the
time base at the truncated peaks, and form the phase coefficients. -/
def relPhaseCore (pA pB : List ℕ) (t : List ℚ) : List ℚ × List ℚ × List ℚ :=
  ((pA.take (truncLen pA pB)).map (fun i => t.getD i 0),
   (pB.take (truncLen pA pB)).map (fun i => t.getD i 0),
   phaseCoeffs pA pB)

/-- `relative_phase(a, b, t)`: validate/reduce the inputs, default the time
base to `np.arange(len(a))`, detect peaks in both signals (each with its own
sampled baseline), truncate, and return
`(t[peaks_A], t[peaks_B], 2π (peaks_A - peaks_B) / periods)`. -/
noncomputable def relative_phase (pca : NDArr → List ℚ) (rA rB : ℕ → ℕ → ℚ)
    (a : NDArr) (b : Option NDArr) (t : Option (List ℚ)) :
    Except PyErr (List ℚ × List ℚ × List ℝ) := do
  let (va, vb) ← validate_vectors pca a b
  let tArr := t.getD ((List.range va.length).map (fun (i : ℕ) => (i : ℚ)))
  let pA ← ampdCore rA va
  let pB ← ampdCore rB vb
  let (ta, tb, coeffs) := relPhaseCore pA pB tArr
  Except.ok (ta, tb, coeffs.map (fun (q : ℚ) => 2 * Real.pi * (q : ℝ)))

/-! ### Concrete objects used by witnesses and counterexamples -/

/-- The constant baseline `1`: a valid realisation of `np.random.sample + 1`
(every sampled cell happens to be at the bottom of the `[1, 2)` range). -/
def baselineOne : ℕ → ℕ → ℚ := fun _ _ => 1

/-- A valid baseline realisation that loads the first scalogram row near the
top of `[1, 2)` and the remaining rows near the bottom. -/
def baselineSkew : ℕ → ℕ → ℚ := fun kIdx _ => if kIdx = 0 then 19 / 10 else 11 / 10

/-- A second valid skewed baseline realisation, distinct from
`baselineSkew`. -/
def baselineSkew2 : ℕ → ℕ → ℚ := fun kIdx _ => if kIdx = 0 then 9 / 5 else 6 / 5

/-- A detrend-invariant periodic test signal with peaks at samples
4, 7 and 10 detectable by the scalogram. -/
def sig12 : List ℚ := [-1, 2, -1, -1, 2, -1, -1, 2, -1, -1, 2, -1]

/-- `sig12` as a 1-D array input. -/
def arr12 : NDArr := ⟨[12], sig12⟩

/-- A trivial stand-in for the external PCA collapse (never invoked on the
1-D inputs of the concrete runs). -/
def pcaTriv : NDArr → List ℚ := fun _ => []

/-- A minimal three-sample signal: its scalogram has a single row, so no
peaks are ever reported. -/
def sig3 : List ℚ := [0, 1, 0]

/-- `sig3` as a 1-D array input. -/
def arr3 : NDArr := ⟨[3], sig3⟩

/-- A genuinely 3-dimensional array (2 × 2 × 2), not reducible to 1-D. -/
def arr222 : NDArr := ⟨[2, 2, 2], List.replicate 8 0⟩

/-- The peak set that the skewed baselines detect in `sig12`. -/
def p12 : List ℕ := [4, 7, 10]

/-- The default time base `np.arange(12)` for `sig12`. -/
def tBase12 : List ℚ := (List.range sig12.length).map (fun (i : ℕ) => (i : ℚ))

/-- Row-major interleaving of two equal-length signals: the flat data of the
two-column array `np.vstack((a, b)).T`. -/
def interleave : List ℚ → List ℚ → List ℚ
  | x :: xs, y :: ys => x :: y :: interleave xs ys
  | _, _ => []

/-- The two-column array formed by stacking signals `a` and `b`. -/
def stack2 (a b : List ℚ) : NDArr := ⟨[a.length, 2], interleave a b⟩

/-- The per-signal inputs that `_validate_vectors` feeds to its reduction
step: the two arguments themselves when `b` is given, the two split columns
when `b` is absent and the squeezed `a` is a valid two-column array. -/
def splitInputs (a : NDArr) (b : Option NDArr) : List NDArr :=
  match b with
  | some b0 => [a, b0]
  | none =>
    if a.squeeze.ndim = 2 ∧ a.squeeze.shape.getD 1 0 = 2 then
      [⟨[a.squeeze.shape.getD 0 0], a.squeeze.col 0⟩,
       ⟨[a.squeeze.shape.getD 0 0], a.squeeze.col 1⟩]
    else []

/-- An array that no dimensionality-reduction step can bring to 1-D: after
squeezing, more than two dimensions remain (the external PCA collaborator
maps an `N × M` matrix to an `N`-sequence and rejects higher ranks). -/
def notReducibleTo1D (x : NDArr) : Prop := 2 < x.squeeze.ndim

/-- A sampled baseline is collision-free for the first `nRows` scalogram rows
of `d` when no column of the restricted matrix is constant unless it is
all-zero (almost surely true for the continuous sampling of
`np.random.sample`). -/
def noCollision (r : ℕ → ℕ → ℚ) (d : List ℚ) (nRows : ℕ) : Prop :=
  ∀ i < d.length,
    (∀ x ∈ columnUpTo r d nRows i, ∀ y ∈ columnUpTo r d nRows i, x = y) →
    ∀ x ∈ columnUpTo r d nRows i, x = 0

instance noCollisionDecidable (r : ℕ → ℕ → ℚ) (d : List ℚ) (nRows : ℕ) :
    Decidable (noCollision r d nRows) := by
  unfold noCollision
  infer_instance

/-! ### Helper lemmas -/

lemma detrend_length (x : List ℚ) : (detrend x).length = x.length := by
  simp [detrend]

lemma lms_length (r : ℕ → ℕ → ℚ) (d : List ℚ) :
    (local_maxima_scalogram r d).length = numScales d.length := by
  simp [local_maxima_scalogram]

lemma gammas_length (r : ℕ → ℕ → ℚ) (d : List ℚ) :
    (gammas r d).length = numScales d.length := by
  simp [gammas, lms_length]

lemma lmsRow_getD (r : ℕ → ℕ → ℚ) (d : List ℚ) (kIdx i : ℕ) (hi : i < d.length) :
    (lmsRow r d kIdx).getD i 0 = lmsEntry r d kIdx i := by
  rw [lmsRow, List.getD_eq_getElem _ _ (by simpa using hi), List.getElem_map,
    List.getElem_range]

lemma columnUpTo_eq (r : ℕ → ℕ → ℚ) (d : List ℚ) (nRows i : ℕ) (hi : i < d.length) :
    columnUpTo r d nRows i =
      (List.range (min nRows (numScales d.length))).map (fun kIdx => lmsEntry r d kIdx i) := by
  rw [columnUpTo, local_maxima_scalogram, ← List.map_take, List.take_range, List.map_map]
  refine List.map_congr_left ?_
  intro kIdx _
  exact lmsRow_getD r d kIdx i hi

lemma columnUpTo_length (r : ℕ → ℕ → ℚ) (d : List ℚ) (nRows i : ℕ) :
    (columnUpTo r d nRows i).length = min nRows (numScales d.length) := by
  simp [columnUpTo, lms_length]

lemma npStd_eq_some_zero_iff (xs : List ℚ) :
    npStd xs = some 0 ↔ 2 ≤ xs.length ∧ sampleVar xs = 0 := by
  unfold npStd
  split <;> simp_all

lemma zeroCell_iff (d : List ℚ) (k i : ℕ) :
    zeroCell d k i = true ↔
      k + 1 ≤ i ∧ i ≤ d.length - k ∧
      d.getD (i - k) 0 < d.getD i 0 ∧ d.getD ((i + k) % d.length) 0 < d.getD i 0 := by
  simp [zeroCell, and_assoc]

lemma lmsEntry_eq_zero_iff (r : ℕ → ℕ → ℚ) (d : List ℚ) (kIdx i : ℕ)
    (hr : 1 ≤ r kIdx i) :
    lmsEntry r d kIdx i = 0 ↔ zeroCell d (kIdx + 1) i = true := by
  unfold lmsEntry
  split <;> simp_all
  intro h
  rw [h] at hr
  exact absurd hr (by norm_num)

lemma argminFirst_lt_length (xs : List ℚ) (h : xs ≠ []) :
    argminFirst xs < xs.length := by
  induction xs with
  | nil => exact absurd rfl h
  | cons x rest ih =>
    by_cases hrest : rest = []
    · subst hrest
      simp [argminFirst]
    · have hlt := ih hrest
      rw [argminFirst]
      split
      · simpa using Nat.succ_lt_succ hlt
      · simp

lemma getD_default_irrel (xs : List ℚ) (j : ℕ) (d d' : ℚ) (hj : j < xs.length) :
    xs.getD j d = xs.getD j d' := by
  rw [List.getD_eq_getElem xs d hj, List.getD_eq_getElem xs d' hj]

lemma argminFirst_le (xs : List ℚ) :
    ∀ j < xs.length, xs.getD (argminFirst xs) 0 ≤ xs.getD j 0 := by
  induction xs with
  | nil => intro j hj; simp at hj
  | cons x rest ih =>
    intro j hj
    by_cases hrest : rest = []
    · subst hrest
      have hj0 : j = 0 := by
        simp at hj
        omega
      subst hj0
      simp [argminFirst]
    · have hj0 : argminFirst rest < rest.length := argminFirst_lt_length rest hrest
      have hdef : rest.getD (argminFirst rest) x = rest.getD (argminFirst rest) 0 :=
        getD_default_irrel rest _ x 0 hj0
      rw [argminFirst]
      split
      · rename_i hcond
        rw [hdef] at hcond
        match j, hj with
        | 0, _ => simpa using le_of_lt hcond
        | (j' + 1), hj =>
          have := ih j' (by simpa using Nat.lt_of_succ_lt_succ hj)
          simpa using this
      · rename_i hcond
        rw [hdef] at hcond
        push_neg at hcond
        match j, hj with
        | 0, _ => simp
        | (j' + 1), hj =>
          have := ih j' (by simpa using Nat.lt_of_succ_lt_succ hj)
          simp only [List.getD_cons_zero, List.getD_cons_succ]
          exact le_trans hcond this

lemma sum_sq_eq_zero_iff (xs : List ℚ) (c : ℚ) :
    ((xs.map (fun x => (x - c) ^ 2)).sum = 0) ↔ ∀ x ∈ xs, x = c := by
  induction xs with
  | nil => simp
  | cons x rest ih =>
    have h1 : (0 : ℚ) ≤ (x - c) ^ 2 := sq_nonneg _
    have h2 : (0 : ℚ) ≤ ((rest.map (fun y => (y - c) ^ 2)).sum) := by
      apply List.sum_nonneg
      intro a ha
      rcases List.mem_map.mp ha with ⟨y, _, rfl⟩
      exact sq_nonneg _
    simp only [List.map_cons, List.sum_cons, List.mem_cons]
    rw [add_eq_zero_iff_of_nonneg h1 h2]
    constructor
    · rintro ⟨hx, hs⟩
      have hx0 : x = c := by
        have := pow_eq_zero_iff (n := 2) (by norm_num) |>.mp hx
        linarith [sub_eq_zero.mp this]
      exact fun y hy => hy.elim (fun h => h ▸ hx0) (ih.mp hs y)
    · intro hall
      refine ⟨?_, ih.mpr fun y hy => hall y (Or.inr hy)⟩
      rw [hall x (Or.inl rfl)]
      ring

lemma sum_of_const (xs : List ℚ) (c : ℚ) (hall : ∀ x ∈ xs, x = c) :
    xs.sum = (xs.length : ℚ) * c := by
  induction xs with
  | nil => simp
  | cons x rest ih =>
    simp only [List.sum_cons, List.length_cons]
    rw [hall x (List.mem_cons_self x rest), ih fun y hy => hall y (List.mem_cons_of_mem x hy)]
    push_cast
    ring

lemma mean_of_const (xs : List ℚ) (c : ℚ) (h : xs ≠ []) (hall : ∀ x ∈ xs, x = c) :
    mean xs = c := by
  have hl : xs.length ≠ 0 := by
    have := List.length_pos.mpr h
    omega
  have hn : (xs.length : ℚ) ≠ 0 := Nat.cast_ne_zero.mpr hl
  rw [mean, sum_of_const xs c hall, mul_comm, mul_div_assoc, div_self hn, mul_one]

lemma sampleVar_eq_zero_iff (xs : List ℚ) (h2 : 2 ≤ xs.length) :
    sampleVar xs = 0 ↔ ∀ x ∈ xs, x = mean xs := by
  have hden : ((xs.length : ℚ) - 1) ≠ 0 := by
    have : (2 : ℚ) ≤ (xs.length : ℚ) := by exact_mod_cast h2
    linarith
  rw [sampleVar, div_eq_zero_iff]
  simp only [hden, or_false]
  exact sum_sq_eq_zero_iff xs (mean xs)

lemma pairwise_iff_eq_mean (xs : List ℚ) (h2 : 2 ≤ xs.length) :
    (∀ x ∈ xs, ∀ y ∈ xs, x = y) ↔ ∀ x ∈ xs, x = mean xs := by
  have hne : xs ≠ [] := by
    intro h
    rw [h] at h2
    simp at h2
  constructor
  · intro hpair x hx
    have hmean : mean xs = x := mean_of_const xs x hne fun y hy => hpair y hy x hx
    exact hmean.symm
  · intro hall x hx y hy
    rw [hall x hx, hall y hy]

/-! ### Plumbing lemmas for the `Except` pipelines -/

lemma except_bind_ok {ε α β : Type} (a : α) (f : α → Except ε β) :
    (Except.ok a >>= f) = f a := rfl

lemma except_bind_err {ε α β : Type} (e : ε) (f : α → Except ε β) :
    ((Except.error e : Except ε α) >>= f) = Except.error e := rfl

lemma squeeze_ndim_eq_countP (x : NDArr) :
    x.squeeze.ndim = x.shape.countP (fun d => d ≠ 1) := by
  simp [NDArr.squeeze, NDArr.ndim, List.countP_eq_length_filter]

lemma ampd_peaks_of_valid (r : ℕ → ℕ → ℚ) (x : NDArr) (v : List ℚ)
    (hval : validate_vector x = Except.ok v) :
    ampd_peaks r x = ampdCore r v := by
  simp [ampd_peaks, hval, except_bind_ok]

lemma ampdCore_ok (r : ℕ → ℕ → ℚ) (v : List ℚ)
    (hL : (gammas r (detrend v)).isEmpty = false) :
    ampdCore r v = Except.ok ((List.range (detrend v).length).filter
      (fun i => decide (npStd (columnUpTo r (detrend v)
        (argminFirst (gammas r (detrend v)) + 1) i) = some 0))) := by
  rw [ampdCore]
  simp [hL]

lemma ampdCore_err (r : ℕ → ℕ → ℚ) (v : List ℚ)
    (h : (gammas r (detrend v)).isEmpty = true) :
    ampdCore r v = Except.error PyErr.other := by
  rw [ampdCore]
  simp [h]

lemma ampdCore_ne_validation (r : ℕ → ℕ → ℚ) (v : List ℚ) :
    ampdCore r v ≠ Except.error PyErr.validation := by
  rw [ampdCore]
  dsimp only
  split <;> simp

/-! ### C8: validation behaviour of `ampd_peaks` -/

/-- C8: `detect_peaks` (`ampd_peaks`) raises a ValidationError if and only if
its input still has more than one non-singleton dimension after squeezing; any
input squeezable to a 1D sequence passes validation (it never raises a
ValidationError — a too-short signal fails later with a different error,
modelled as `PyErr.other`). -/
theorem ampd_peaks_validation_error_iff (r : ℕ → ℕ → ℚ) (x : NDArr) :
    ampd_peaks r x = Except.error PyErr.validation ↔
      1 < x.shape.countP (fun d => d ≠ 1) := by
  by_cases h : 1 < x.squeeze.ndim
  · have hval : validate_vector x = Except.error PyErr.validation := by
      simp [validate_vector, h]
    constructor
    · intro _
      rw [← squeeze_ndim_eq_countP]
      exact h
    · intro _
      simp [ampd_peaks, hval, except_bind_err]
  · have hval : validate_vector x = Except.ok x.squeeze.flat := by
      simp [validate_vector, h]
    rw [ampd_peaks_of_valid r x _ hval]
    constructor
    · intro hc
      exact absurd hc (ampdCore_ne_validation r _)
    · intro hc
      rw [← squeeze_ndim_eq_countP] at hc
      exact absurd hc h

/-! ### C10: a characteristic scale of 1 gives NaN deviations and no peaks -/

/-- C10: whenever the first global minimiser of the row sums `gamma` is the
first scale (`lambda = 1`, row index 0), the restricted matrix `lms[:1]` has a
single row, so the ddof=1 standard deviation of every column is undefined
(NaN, modelled `none`), and `ampd_peaks` returns an empty peak set. -/
theorem ampd_peaks_lambda_one_empty (r : ℕ → ℕ → ℚ) (x : NDArr) (v : List ℚ)
    (hval : validate_vector x = Except.ok v)
    (hL : (gammas r (detrend v)).isEmpty = false)
    (hmin : argminFirst (gammas r (detrend v)) = 0) :
    (∀ i, npStd (columnUpTo r (detrend v) 1 i) = none) ∧
      ampd_peaks r x = Except.ok [] := by
  have hL1 : 1 ≤ numScales (detrend v).length := by
    have := gammas_length r (detrend v)
    rcases Nat.eq_zero_or_pos (numScales (detrend v).length) with h0 | h1
    · rw [h0] at this
      have : gammas r (detrend v) = [] := List.eq_nil_of_length_eq_zero this
      rw [this] at hL
      simp at hL
    · exact h1
  have hnan : ∀ i, npStd (columnUpTo r (detrend v) 1 i) = none := by
    intro i
    have hlen : (columnUpTo r (detrend v) 1 i).length = 1 := by
      rw [columnUpTo_length]
      omega
    rw [npStd, if_neg]
    omega
  refine ⟨hnan, ?_⟩
  rw [ampd_peaks_of_valid r x v hval, ampdCore_ok r v hL, hmin]
  congr 1
  rw [List.filter_eq_nil_iff]
  intro i _
  simp [hnan i]

/-! ### Running the `relative_phase` pipeline -/

lemma npDiff_length (xs : List ℕ) : (npDiff xs).length = xs.length - 1 := by
  rw [npDiff, List.length_zipWith, List.length_tail]
  omega

lemma truncLen_eq (pA pB : List ℕ) :
    truncLen pA pB = min (min pA.length pB.length) (pA.length - 1) := by
  rw [truncLen, npDiff_length]

lemma relative_phase_run (pca : NDArr → List ℚ) (rA rB : ℕ → ℕ → ℚ)
    (a : NDArr) (b : Option NDArr) (t : Option (List ℚ))
    (va vb : List ℚ) (pA pB : List ℕ)
    (hval : validate_vectors pca a b = Except.ok (va, vb))
    (hA : ampdCore rA va = Except.ok pA)
    (hB : ampdCore rB vb = Except.ok pB) :
    relative_phase pca rA rB a b t = Except.ok
      ((relPhaseCore pA pB (t.getD ((List.range va.length).map (fun (i : ℕ) => (i : ℚ))))).1,
       (relPhaseCore pA pB (t.getD ((List.range va.length).map (fun (i : ℕ) => (i : ℚ))))).2.1,
       (relPhaseCore pA pB (t.getD ((List.range va.length).map (fun (i : ℕ) => (i : ℚ))))).2.2.map
         (fun (q : ℚ) => 2 * Real.pi * (q : ℝ))) := by
  rw [relative_phase, hval, except_bind_ok]
  dsimp only
  rw [hA, except_bind_ok, hB, except_bind_ok]

/-! ### C9: degenerate peak sets give empty output, not an error -/

/-- C9: when peak detection succeeds but finds fewer than two peaks in signal
A or no peaks in signal B, `relative_phase` does not raise: the truncation
length is zero and it returns three empty sequences. -/
theorem relative_phase_few_peaks_empty (pca : NDArr → List ℚ) (rA rB : ℕ → ℕ → ℚ)
    (a : NDArr) (b : Option NDArr) (t : Option (List ℚ))
    (va vb : List ℚ) (pA pB : List ℕ)
    (hval : validate_vectors pca a b = Except.ok (va, vb))
    (hA : ampdCore rA va = Except.ok pA)
    (hB : ampdCore rB vb = Except.ok pB)
    (hfew : pA.length ≤ 1 ∨ pB = []) :
    relative_phase pca rA rB a b t = Except.ok ([], [], []) := by
  rw [relative_phase_run pca rA rB a b t va vb pA pB hval hA hB]
  have hlen : truncLen pA pB = 0 := by
    rw [truncLen_eq]
    rcases hfew with h | h
    · omega
    · subst h
      simp
  simp [relPhaseCore, phaseCoeffs, hlen]

/-! ### C4: the three outputs share the truncated length -/

/-- C4: the three sequences returned by `relative_phase` have identical
length, namely `min(len(peaks_A), len(peaks_B), len(peaks_A) - 1)`. -/
theorem relative_phase_lengths (pca : NDArr → List ℚ) (rA rB : ℕ → ℕ → ℚ)
    (a : NDArr) (b : Option NDArr) (t : Option (List ℚ))
    (va vb : List ℚ) (pA pB : List ℕ) (out : List ℚ × List ℚ × List ℝ)
    (hval : validate_vectors pca a b = Except.ok (va, vb))
    (hA : ampdCore rA va = Except.ok pA)
    (hB : ampdCore rB vb = Except.ok pB)
    (hres : relative_phase pca rA rB a b t = Except.ok out) :
    out.1.length = min (min pA.length pB.length) (pA.length - 1) ∧
      out.2.1.length = min (min pA.length pB.length) (pA.length - 1) ∧
      out.2.2.length = min (min pA.length pB.length) (pA.length - 1) := by
  rw [relative_phase_run pca rA rB a b t va vb pA pB hval hA hB] at hres
  injection hres with hout
  subst hout
  refine ⟨?_, ?_, ?_⟩
  · rw [relPhaseCore]
    dsimp only
    rw [List.length_map, List.length_take, truncLen_eq]
    omega
  · rw [relPhaseCore]
    dsimp only
    rw [List.length_map, List.length_take, truncLen_eq]
    omega
  · rw [relPhaseCore]
    dsimp only
    rw [List.length_map, phaseCoeffs, List.length_zipWith, List.length_zip, List.length_take,
      List.length_take, List.length_take, npDiff_length, truncLen_eq]
    omega

/-! ### C3: the value formula of `relative_phase` -/

lemma phaseCoeffs_eq (pA pB : List ℕ) :
    phaseCoeffs pA pB = (List.range (truncLen pA pB)).map
      (fun (j : ℕ) => ((pA.getD j 0 : ℚ) - (pB.getD j 0 : ℚ)) /
        ((pA.getD (j + 1) 0 : ℚ) - (pA.getD j 0 : ℚ))) := by
  have hT : truncLen pA pB = min (min pA.length pB.length) (pA.length - 1) := truncLen_eq pA pB
  apply List.ext_getElem
  · rw [phaseCoeffs, List.length_zipWith, List.length_zip, List.length_take, List.length_take,
      List.length_take, npDiff_length, List.length_map, List.length_range]
    omega
  · intro j h1 h2
    have hjT : j < truncLen pA pB := by
      rw [List.length_map, List.length_range] at h2
      exact h2
    have hjA : j < pA.length := by omega
    have hjA1 : j + 1 < pA.length := by omega
    have hjB : j < pB.length := by omega
    have hjD : j < (npDiff pA).length := by

      rw [npDiff_length]
      omega
    simp only [phaseCoeffs, npDiff, List.getElem_zipWith, List.getElem_take,
      List.getElem_zip, List.getElem_map, List.getElem_range, List.getElem_tail]
    rw [List.getD_eq_getElem pA 0 hjA, List.getD_eq_getElem pA 0 hjA1,
      List.getD_eq_getElem pB 0 hjB]
    push_cast
    ring_nf

/-- C3: on every input where validation and both peak detections succeed,
`relative_phase` computes `periods[j] = peaks_A[j+1] - peaks_A[j]`, sets
`rel_phase[j] = 2π (peaks_A[j] - peaks_B[j]) / periods[j]` for every `j`
below the truncation length, and returns the triple
`(t[peaks_A[:len]], t[peaks_B[:len]], rel_phase)` (with `t` defaulting to the
sample indices of the reduced signal `a`). -/
theorem relative_phase_formula (pca : NDArr → List ℚ) (rA rB : ℕ → ℕ → ℚ)
    (a : NDArr) (b : Option NDArr) (t : Option (List ℚ))
    (va vb : List ℚ) (pA pB : List ℕ)
    (hval : validate_vectors pca a b = Except.ok (va, vb))
    (hA : ampdCore rA va = Except.ok pA)
    (hB : ampdCore rB vb = Except.ok pB) :
    relative_phase pca rA rB a b t = Except.ok
      ((pA.take (min (min pA.length pB.length) (pA.length - 1))).map
         (fun (i : ℕ) => (t.getD ((List.range va.length).map (fun (i : ℕ) => (i : ℚ)))).getD i 0),
       (pB.take (min (min pA.length pB.length) (pA.length - 1))).map
         (fun (i : ℕ) => (t.getD ((List.range va.length).map (fun (i : ℕ) => (i : ℚ)))).getD i 0),
       (List.range (min (min pA.length pB.length) (pA.length - 1))).map
         (fun (j : ℕ) => 2 * Real.pi *
            (((pA.getD j 0 : ℝ) - (pB.getD j 0 : ℝ)) /
             ((pA.getD (j + 1) 0 : ℝ) - (pA.getD j 0 : ℝ))))) := by
  rw [relative_phase_run pca rA rB a b t va vb pA pB hval hA hB]
  rw [relPhaseCore]
  dsimp only
  rw [phaseCoeffs_eq, truncLen_eq, List.map_map]
  refine congrArg Except.ok ?_
  simp only [Prod.mk.injEq]
  refine ⟨trivial, trivial, ?_⟩
  refine List.map_congr_left ?_
  intro j _
  simp only [Function.comp_apply]
  push_cast
  ring

/-! ### C2: the peak set is exactly the zero-deviation columns at scale λ -/

/-- C2: when validation succeeds and the scalogram is non-empty, `ampd_peaks`
returns exactly the column indices whose ddof=1 sample standard deviation
across scalogram rows `1..λ` is exactly zero (a single-row restriction has
NaN deviation, which is not zero, hence the `2 ≤ length` guard), where the
row index `λ - 1 = argminFirst (gammas …)` attains the global minimum of the
row-wise sums `gamma` (numpy's `argmin` takes the first minimiser on ties). -/
theorem ampd_peaks_zero_std_characterisation (r : ℕ → ℕ → ℚ) (x : NDArr) (v : List ℚ)
    (hval : validate_vector x = Except.ok v)
    (hL : (gammas r (detrend v)).isEmpty = false) :
    (∀ j < (gammas r (detrend v)).length,
        (gammas r (detrend v)).getD (argminFirst (gammas r (detrend v))) 0 ≤
          (gammas r (detrend v)).getD j 0) ∧
      ampd_peaks r x = Except.ok ((List.range (detrend v).length).filter
        (fun i => decide (2 ≤ (columnUpTo r (detrend v)
            (argminFirst (gammas r (detrend v)) + 1) i).length ∧
          sampleVar (columnUpTo r (detrend v)
            (argminFirst (gammas r (detrend v)) + 1) i) = 0))) := by
  refine ⟨argminFirst_le _, ?_⟩
  rw [ampd_peaks_of_valid r x v hval, ampdCore_ok r v hL]
  congr 1
  apply List.filter_congr
  intro i _
  rw [decide_eq_decide]
  exact npStd_eq_some_zero_iff _

/-! ### C1: shape and zeroing rule of the local-maxima scalogram -/

lemma numScales_cast (N : ℕ) (hN : 1 ≤ N) :
    (numScales N : ℤ) = ⌈(N : ℚ) / 2⌉ - 1 := by
  rcases Nat.even_or_odd N with ⟨m, hm⟩ | ⟨m, hm⟩
  · subst hm
    have hm1 : 1 ≤ m := by omega
    have h1 : numScales (m + m) = m - 1 := by
      rw [numScales]
      omega
    have h2 : ⌈((m + m : ℕ) : ℚ) / 2⌉ = (m : ℤ) := by
      have hq : ((m + m : ℕ) : ℚ) / 2 = (m : ℚ) := by
        push_cast
        ring
      rw [hq, Int.ceil_natCast]
    rw [h1, h2]
    omega
  · subst hm
    have h1 : numScales (2 * m + 1) = m := by
      rw [numScales]
      omega
    have h2 : ⌈((2 * m + 1 : ℕ) : ℚ) / 2⌉ = (m : ℤ) + 1 := by
      have hq : ((2 * m + 1 : ℕ) : ℚ) / 2 = (1 / 2 : ℚ) + ((m : ℤ) : ℚ) := by
        push_cast
        ring
      rw [hq, Int.ceil_add_int]
      have h12 : ⌈(1 / 2 : ℚ)⌉ = 1 := by
        rw [Int.ceil_eq_iff]
        norm_num
      rw [h12]
      ring
    rw [h1, h2]
    omega

/-- C1 (amended): for a signal of length `N ≥ 1` and any strictly positive
sampled baseline, the scalogram has `⌈N/2⌉ - 1` rows of `N` entries each, and
for scales `1 ≤ k ≤ L` and 0-based columns `i < N`, the entry at `(k, i)` is
`0` iff `k + 1 ≤ i ≤ N - k` and the detrended sample `d[i]` strictly exceeds
`d[i - k]` and the rolled forward neighbour `d[(i + k) % N]` (which wraps to
`d[0]` at the last checked column `i = N - k` — this wraparound is the one
amendment to the claim); every other entry keeps its strictly positive
baseline value. -/
theorem lms_entries_characterisation (x : List ℚ) (r : ℕ → ℕ → ℚ)
    (hr : ∀ kIdx i, 1 ≤ r kIdx i) (hN : 1 ≤ x.length) :
    ((local_maxima_scalogram r (detrend x)).length : ℤ) = ⌈(x.length : ℚ) / 2⌉ - 1 ∧
    (∀ row ∈ local_maxima_scalogram r (detrend x), row.length = x.length) ∧
    (∀ k, k ≤ numScales x.length → 1 ≤ k → ∀ i, i < x.length →
      ((lmsEntry r (detrend x) (k - 1) i = 0 ↔
          (k + 1 ≤ i ∧ i ≤ x.length - k ∧
           (detrend x).getD (i - k) 0 < (detrend x).getD i 0 ∧
           (detrend x).getD ((i + k) % x.length) 0 < (detrend x).getD i 0)) ∧
        (lmsEntry r (detrend x) (k - 1) i ≠ 0 →
          lmsEntry r (detrend x) (k - 1) i = r (k - 1) i ∧
          0 < lmsEntry r (detrend x) (k - 1) i))) := by
  have hdl : (detrend x).length = x.length := detrend_length x
  refine ⟨?_, ?_, ?_⟩
  · rw [lms_length, hdl, numScales_cast x.length hN]
  · intro row hrow
    rcases List.mem_map.mp hrow with ⟨kIdx, _, rfl⟩
    simp [lmsRow, hdl]
  · intro k hk hk1 i hi
    have hk' : k - 1 + 1 = k := by omega
    constructor
    · rw [lmsEntry_eq_zero_iff r (detrend x) (k - 1) i (hr _ _), hk', zeroCell_iff, hdl]
    · intro hne
      by_cases hz : zeroCell (detrend x) (k - 1 + 1) i
      · exact absurd (by rw [lmsEntry, if_pos hz]) hne
      · rw [lmsEntry, if_neg hz]
        exact ⟨rfl, lt_of_lt_of_le zero_lt_one (hr _ _)⟩

section
attribute [local semireducible] Rat.add Rat.mul Rat.inv Rat.sub Rat.ofScientific

/-- C1 counterexample: the zeroing rule exactly as claimed — with the forward
comparison reading `data[i + k]` — is false: for the (already detrended)
signal `[-1, 2, -1, 0]` with the constant valid baseline `1`, the code zeroes
the cell at scale `k = 1`, column `i = 3 = N - k`, because `np.roll` wraps the
forward neighbour around to `data[0] = -1 < 0 = data[3]`, while the claimed
condition compares against the non-existent sample `data[4]` and fails. -/
theorem lms_zero_rule_as_stated_fails :
    (∀ kIdx i, (1 : ℚ) ≤ baselineOne kIdx i) ∧
    ¬ (∀ k, k ≤ numScales (([-1, 2, -1, 0] : List ℚ)).length → 1 ≤ k →
        ∀ i, i < (([-1, 2, -1, 0] : List ℚ)).length →
          (lmsEntry baselineOne (detrend [-1, 2, -1, 0]) (k - 1) i = 0 ↔
            (k + 1 ≤ i ∧ i ≤ (([-1, 2, -1, 0] : List ℚ)).length - k ∧
             (detrend [-1, 2, -1, 0]).getD (i - k) 0 < (detrend [-1, 2, -1, 0]).getD i 0 ∧
             (detrend [-1, 2, -1, 0]).getD (i + k) 0 < (detrend [-1, 2, -1, 0]).getD i 0))) :=
  ⟨fun _ _ => le_refl 1, by decide⟩

end

/-! ### C6: the single two-column argument is split into the two signals -/

lemma interleave_getD_even (a : List ℚ) :
    ∀ (b : List ℚ) (i : ℕ), i < a.length → i < b.length →
      (interleave a b).getD (2 * i) 0 = a.getD i 0 := by
  induction a with
  | nil => intro b i hi _; simp at hi
  | cons x xs ih =>
    intro b i hia hib
    cases b with
    | nil => simp at hib
    | cons y ys =>
      cases i with
      | zero => simp [interleave]
      | succ j =>
        have h2 : 2 * (j + 1) = 2 * j + 1 + 1 := by ring
        rw [interleave, h2]
        simp only [List.getD_cons_succ]
        exact ih ys j (by simpa using hia) (by simpa using hib)

lemma interleave_getD_odd (a : List ℚ) :
    ∀ (b : List ℚ) (i : ℕ), i < a.length → i < b.length →
      (interleave a b).getD (2 * i + 1) 0 = b.getD i 0 := by
  induction a with
  | nil => intro b i hi _; simp at hi
  | cons x xs ih =>
    intro b i hia hib
    cases b with
    | nil => simp at hib
    | cons y ys =>
      cases i with
      | zero => simp [interleave]
      | succ j =>
        have h2 : 2 * (j + 1) + 1 = 2 * j + 1 + 1 + 1 := by ring
        rw [interleave, h2]
        simp only [List.getD_cons_succ]
        exact ih ys j (by simpa using hia) (by simpa using hib)

lemma getD_range_map_self (l : List ℚ) (g : ℕ → ℚ) (hg : ∀ i < l.length, g i = l.getD i 0) :
    (List.range l.length).map g = l := by
  apply List.ext_getElem
  · simp
  · intro i h1 h2
    rw [List.getElem_map, List.getElem_range, hg i h2, List.getD_eq_getElem l 0 h2]

lemma squeeze_stack2 (a b : List ℚ) (h2 : 2 ≤ a.length) :
    (stack2 a b).squeeze = stack2 a b := by
  have hne : a.length ≠ 1 := by omega
  simp [stack2, NDArr.squeeze, hne]

lemma stack2_col0 (a b : List ℚ) (h2 : 2 ≤ a.length) (hlen : a.length = b.length) :
    (stack2 a b).col 0 = a := by
  rw [stack2, NDArr.col]
  simp only [List.getD_cons_zero, List.getD_cons_succ]
  apply getD_range_map_self
  intro i hi
  have h := interleave_getD_even a b i hi (by omega)
  rw [← h]
  congr 1
  ring

lemma stack2_col1 (a b : List ℚ) (h2 : 2 ≤ a.length) (hlen : a.length = b.length) :
    (stack2 a b).col 1 = b := by
  rw [stack2, NDArr.col]
  simp only [List.getD_cons_zero, List.getD_cons_succ]
  have hlb : a.length = b.length := hlen
  rw [show (List.range a.length) = List.range b.length by rw [hlen]]
  apply getD_range_map_self
  intro i hi
  have h := interleave_getD_odd a b i (by omega) hi
  rw [← h]
  congr 1
  ring

lemma reduce1D_vec (pca : NDArr → List ℚ) (v : List ℚ) (hne : v.length ≠ 1) :
    reduce1D pca ⟨[v.length], v⟩ = Except.ok v := by
  simp [reduce1D, NDArr.squeeze, NDArr.ndim, hne]

lemma validate_vectors_two_vec (pca : NDArr → List ℚ) (a b : List ℚ)
    (ha : a.length ≠ 1) (hb : b.length ≠ 1) :
    validate_vectors pca ⟨[a.length], a⟩ (some ⟨[b.length], b⟩) = Except.ok (a, b) := by
  rw [validate_vectors]
  dsimp only
  rw [except_bind_ok]
  dsimp only
  rw [reduce1D_vec pca a ha, except_bind_ok, reduce1D_vec pca b hb, except_bind_ok]

lemma validate_vectors_stack2 (pca : NDArr → List ℚ) (a b : List ℚ)
    (h2 : 2 ≤ a.length) (hlen : a.length = b.length) :
    validate_vectors pca (stack2 a b) none = Except.ok (a, b) := by
  have hsq := squeeze_stack2 a b h2
  have hcond : (stack2 a b).squeeze.ndim = 2 ∧ (stack2 a b).squeeze.shape.getD 1 0 = 2 := by
    rw [hsq]
    exact ⟨rfl, rfl⟩
  rw [validate_vectors]
  dsimp only
  rw [if_pos hcond, except_bind_ok]
  dsimp only
  rw [hsq]
  have hshape0 : (stack2 a b).shape.getD 0 0 = a.length := rfl
  rw [hshape0, stack2_col0 a b h2 hlen, stack2_col1 a b h2 hlen]
  rw [reduce1D_vec pca a (by omega)]
  rw [except_bind_ok]
  rw [show (⟨[a.length], b⟩ : NDArr) = ⟨[b.length], b⟩ by rw [hlen]]
  rw [reduce1D_vec pca b (by omega), except_bind_ok]

/-- C6: calling `relative_phase` with the single two-column array formed by
stacking signals `a` and `b` (each of length at least 2) produces exactly the
same result as calling it with `a` and `b` as separate arguments — the
single-argument form merely splits the columns; the downstream computation,
including the sampled baselines, is identical. -/
theorem relative_phase_two_column_split (pca : NDArr → List ℚ) (rA rB : ℕ → ℕ → ℚ)
    (a b : List ℚ) (t : Option (List ℚ)) (h2 : 2 ≤ a.length) (hlen : a.length = b.length) :
    relative_phase pca rA rB (stack2 a b) none t =
      relative_phase pca rA rB ⟨[a.length], a⟩ (some ⟨[b.length], b⟩) t := by
  rw [relative_phase, relative_phase,
    validate_vectors_stack2 pca a b h2 hlen,
    validate_vectors_two_vec pca a b (by omega) (by omega)]

/-! ### C7: when `relative_phase` raises a ValidationError -/

lemma reduce1D_dim1 (pca : NDArr → List ℚ) (n : ℕ) (v : List ℚ) (hn : n ≠ 1) :
    reduce1D pca ⟨[n], v⟩ = Except.ok v := by
  simp [reduce1D, NDArr.squeeze, NDArr.ndim, hn]

lemma reduce1D_err_iff (pca : NDArr → List ℚ) (x : NDArr) :
    reduce1D pca x = Except.error PyErr.validation ↔ 2 < x.squeeze.ndim := by
  rw [reduce1D]
  split_ifs with h1 h2 <;> simp <;> omega

lemma reduce1D_ok_of (pca : NDArr → List ℚ) (x : NDArr) (h : ¬ 2 < x.squeeze.ndim) :
    ∃ v, reduce1D pca x = Except.ok v := by
  rw [reduce1D]
  split_ifs with h1 h2
  · exact ⟨x.squeeze.flat, rfl⟩
  · exact ⟨pca x.squeeze, rfl⟩
  · omega

lemma squeeze_dim1_ndim_le (n : ℕ) (v : List ℚ) : (NDArr.squeeze ⟨[n], v⟩).ndim ≤ 1 := by
  rw [NDArr.squeeze, NDArr.ndim]
  simpa using List.length_filter_le _ [n]

lemma validate_vectors_validation_iff (pca : NDArr → List ℚ) (a : NDArr) (b : Option NDArr) :
    validate_vectors pca a b = Except.error PyErr.validation ↔
      (b = none ∧ ¬ (a.squeeze.ndim = 2 ∧ a.squeeze.shape.getD 1 0 = 2)) ∨
      ∃ x ∈ splitInputs a b, notReducibleTo1D x := by
  cases b with
  | none =>
    by_cases hcond : a.squeeze.ndim = 2 ∧ a.squeeze.shape.getD 1 0 = 2
    · have hn1 : a.squeeze.shape.getD 0 0 ≠ 1 := by
        have hlen : a.squeeze.shape.length = 2 := hcond.1
        have hmem : a.squeeze.shape.getD 0 0 ∈ a.squeeze.shape := by
          rw [List.getD_eq_getElem _ _ (by omega)]
          exact List.getElem_mem _
        have := List.of_mem_filter (p := fun d => d ≠ 1) hmem
        simpa using this
      rw [validate_vectors]
      dsimp only
      rw [if_pos hcond, except_bind_ok]
      dsimp only
      rw [reduce1D_dim1 pca _ _ hn1, except_bind_ok, reduce1D_dim1 pca _ _ hn1,
        except_bind_ok]
      constructor
      · intro h
        exact absurd h (fun h => Except.noConfusion h)
      · rintro (⟨_, hc⟩ | ⟨x, hx, hred⟩)
        · exact absurd hcond hc
        · simp only [splitInputs, if_pos hcond] at hx
          rw [notReducibleTo1D] at hred
          rcases List.mem_pair.mp hx with rfl | rfl
          · have := squeeze_dim1_ndim_le (a.squeeze.shape.getD 0 0) (a.squeeze.col 0)
            omega
          · have := squeeze_dim1_ndim_le (a.squeeze.shape.getD 0 0) (a.squeeze.col 1)
            omega
    · rw [validate_vectors]
      dsimp only
      rw [if_neg hcond, except_bind_err]
      constructor
      · intro _
        exact Or.inl ⟨rfl, hcond⟩
      · intro _
        rfl
  | some b0 =>
    rw [validate_vectors]
    dsimp only
    rw [except_bind_ok]
    by_cases hA : 2 < a.squeeze.ndim
    · rw [(reduce1D_err_iff pca a).mpr hA, except_bind_err]
      constructor
      · intro _
        refine Or.inr ⟨a, ?_, hA⟩
        simp [splitInputs]
      · intro _
        rfl
    · obtain ⟨va, hva⟩ := reduce1D_ok_of pca a hA
      rw [hva, except_bind_ok]
      dsimp only
      by_cases hB : 2 < b0.squeeze.ndim
      · rw [(reduce1D_err_iff pca b0).mpr hB, except_bind_err]
        constructor
        · intro _
          refine Or.inr ⟨b0, ?_, hB⟩
          simp [splitInputs]
        · intro _
          rfl
      · obtain ⟨vb, hvb⟩ := reduce1D_ok_of pca b0 hB
        rw [hvb, except_bind_ok]
        constructor
        · intro h
          exact Except.noConfusion h
        · rintro (⟨hbn, _⟩ | ⟨x, hx, hred⟩)
          · exact Option.noConfusion hbn
          · simp only [splitInputs] at hx
            rw [notReducibleTo1D] at hred
            rcases List.mem_pair.mp hx with rfl | rfl
            · exact absurd hred hA
            · exact absurd hred hB

lemma relative_phase_validation_iff_validate (pca : NDArr → List ℚ) (rA rB : ℕ → ℕ → ℚ)
    (a : NDArr) (b : Option NDArr) (t : Option (List ℚ)) :
    relative_phase pca rA rB a b t = Except.error PyErr.validation ↔
      validate_vectors pca a b = Except.error PyErr.validation := by
  cases hv : validate_vectors pca a b with
  | error e =>
    rw [relative_phase, hv, except_bind_err]
    constructor
    · intro h
      injection h with he
      rw [he]
    · intro h
      injection h with he
      rw [he]
  | ok p =>
    obtain ⟨va, vb⟩ := p
    rw [relative_phase, hv, except_bind_ok]
    dsimp only
    constructor
    · intro h
      exfalso
      cases hA : ampdCore rA va with
      | error e =>
        rw [hA, except_bind_err] at h
        injection h with he
        subst he
        exact ampdCore_ne_validation rA va hA
      | ok pA =>
        rw [hA, except_bind_ok] at h
        cases hB : ampdCore rB vb with
        | error e =>
          rw [hB, except_bind_err] at h
          injection h with he
          subst he
          exact ampdCore_ne_validation rB vb hB
        | ok pB =>
          rw [hB, except_bind_ok] at h
          exact Except.noConfusion h
    · intro h
      exact absurd h (fun h => Except.noConfusion h)

/-- C7: `relative_phase` raises a ValidationError — synchronously, with no
partial result (the `Except` value is the whole outcome) — if and only if
either `b` is absent and the squeezed `a` is not 2-D with exactly two
columns, or one of the per-signal inputs cannot be brought to 1-D by
squeezing plus the dimensionality-reduction step (i.e. it is still more than
2-D after squeezing).  Arrays are assumed to have no zero-sized dimension,
where the external PCA collaborator is well behaved. -/
theorem relative_phase_validation_error_iff (pca : NDArr → List ℚ) (rA rB : ℕ → ℕ → ℚ)
    (a : NDArr) (b : Option NDArr) (t : Option (List ℚ))
    (ha : 0 ∉ a.shape) (hb : ∀ y ∈ b, 0 ∉ y.shape) :
    relative_phase pca rA rB a b t = Except.error PyErr.validation ↔
      (b = none ∧ ¬ (a.squeeze.ndim = 2 ∧ a.squeeze.shape.getD 1 0 = 2)) ∨
      ∃ x ∈ splitInputs a b, notReducibleTo1D x := by
  rw [relative_phase_validation_iff_validate pca rA rB a b t,
    validate_vectors_validation_iff pca a b]

/-! ### C5: call-to-call stability of `relative_phase` under resampling -/

lemma npStd_col_zero_iff (s : ℕ → ℕ → ℚ) (d : List ℚ) (nRows i : ℕ)
    (hs : ∀ kIdx j, 1 ≤ s kIdx j) (hi : i < d.length)
    (hnc : noCollision s d nRows) :
    npStd (columnUpTo s d nRows i) = some 0 ↔
      2 ≤ min nRows (numScales d.length) ∧
        ∀ kIdx < min nRows (numScales d.length), zeroCell d (kIdx + 1) i = true := by
  rw [npStd_eq_some_zero_iff, columnUpTo_length]
  have h2col : ∀ h2 : 2 ≤ min nRows (numScales d.length),
      2 ≤ (columnUpTo s d nRows i).length := by
    intro h2
    rw [columnUpTo_length]
    exact h2
  constructor
  · rintro ⟨h2, hvar⟩
    refine ⟨h2, ?_⟩
    have hall := (sampleVar_eq_zero_iff _ (h2col h2)).mp hvar
    have hpair := (pairwise_iff_eq_mean _ (h2col h2)).mpr hall
    have hzero := hnc i hi hpair
    intro kIdx hk
    have hmem : lmsEntry s d kIdx i ∈ columnUpTo s d nRows i := by
      rw [columnUpTo_eq s d nRows i hi]
      exact List.mem_map.mpr ⟨kIdx, List.mem_range.mpr hk, rfl⟩
    exact (lmsEntry_eq_zero_iff s d kIdx i (hs _ _)).mp (hzero _ hmem)
  · rintro ⟨h2, hcells⟩
    refine ⟨h2, ?_⟩
    have hall0 : ∀ x ∈ columnUpTo s d nRows i, x = 0 := by
      intro x hx
      rw [columnUpTo_eq s d nRows i hi] at hx
      rcases List.mem_map.mp hx with ⟨kIdx, hk, rfl⟩
      exact (lmsEntry_eq_zero_iff s d kIdx i (hs _ _)).mpr
        (hcells kIdx (List.mem_range.mp hk))
    have hne : columnUpTo s d nRows i ≠ [] := by
      intro he
      have := h2col h2
      rw [he] at this
      simp at this
    rw [sampleVar_eq_zero_iff _ (h2col h2)]
    intro x hx
    rw [mean_of_const _ 0 hne hall0]
    exact hall0 x hx

lemma ampdCore_congr (r r2 : ℕ → ℕ → ℚ) (v : List ℚ)
    (hr : ∀ kIdx i, 1 ≤ r kIdx i) (hr2 : ∀ kIdx i, 1 ≤ r2 kIdx i)
    (hlam : argminFirst (gammas r (detrend v)) = argminFirst (gammas r2 (detrend v)))
    (hnc : noCollision r (detrend v) (argminFirst (gammas r (detrend v)) + 1))
    (hnc2 : noCollision r2 (detrend v) (argminFirst (gammas r2 (detrend v)) + 1)) :
    ampdCore r v = ampdCore r2 v := by
  have hglen : (gammas r (detrend v)).length = (gammas r2 (detrend v)).length := by
    rw [gammas_length, gammas_length]
  by_cases hL : (gammas r (detrend v)).isEmpty = true
  · have hL2 : (gammas r2 (detrend v)).isEmpty = true := by
      rw [List.isEmpty_iff_length_eq_zero] at hL ⊢
      omega
    rw [ampdCore_err r v hL, ampdCore_err r2 v hL2]
  · have hL' : (gammas r (detrend v)).isEmpty = false := by
      simpa using hL
    have hL2' : (gammas r2 (detrend v)).isEmpty = false := by
      rw [Bool.eq_false_iff]
      intro hc
      rw [List.isEmpty_iff_length_eq_zero] at hc
      rw [List.isEmpty_iff_length_eq_zero] at hL
      omega
    rw [ampdCore_ok r v hL', ampdCore_ok r2 v hL2', ← hlam]
    congr 1
    apply List.filter_congr
    intro i hi
    have hiN : i < (detrend v).length := List.mem_range.mp hi
    rw [decide_eq_decide]
    rw [npStd_col_zero_iff r (detrend v) _ i hr hiN hnc,
      npStd_col_zero_iff r2 (detrend v) _ i hr2 hiN (hlam ▸ hnc2)]

/-- C5 (amended): each call of `relative_phase` is a pure function of its
arguments and the two sampled baseline matrices — there is no hidden state —
and two calls on the same deterministic inputs return identical results
whenever the two samplings select the same characteristic scale for each
signal and neither produces a constant non-zero column in the restricted
scalogram (an almost-sure event for the continuous random baseline).
Bit-identical output is not guaranteed unconditionally: see the
counterexample. -/
theorem relative_phase_sampling_stable (pca : NDArr → List ℚ)
    (rA rB rA2 rB2 : ℕ → ℕ → ℚ) (a : NDArr) (b : Option NDArr) (t : Option (List ℚ))
    (va vb : List ℚ)
    (hval : validate_vectors pca a b = Except.ok (va, vb))
    (hrA : ∀ kIdx i, 1 ≤ rA kIdx i) (hrA2 : ∀ kIdx i, 1 ≤ rA2 kIdx i)
    (hrB : ∀ kIdx i, 1 ≤ rB kIdx i) (hrB2 : ∀ kIdx i, 1 ≤ rB2 kIdx i)
    (hlamA : argminFirst (gammas rA (detrend va)) = argminFirst (gammas rA2 (detrend va)))
    (hlamB : argminFirst (gammas rB (detrend vb)) = argminFirst (gammas rB2 (detrend vb)))
    (hncA : noCollision rA (detrend va) (argminFirst (gammas rA (detrend va)) + 1))
    (hncA2 : noCollision rA2 (detrend va) (argminFirst (gammas rA2 (detrend va)) + 1))
    (hncB : noCollision rB (detrend vb) (argminFirst (gammas rB (detrend vb)) + 1))
    (hncB2 : noCollision rB2 (detrend vb) (argminFirst (gammas rB2 (detrend vb)) + 1)) :
    relative_phase pca rA rB a b t = relative_phase pca rA2 rB2 a b t := by
  have hA := ampdCore_congr rA rA2 va hrA hrA2 hlamA hncA hncA2
  have hB := ampdCore_congr rB rB2 vb hrB hrB2 hlamB hncB hncB2
  rw [relative_phase, relative_phase, hval, except_bind_ok, except_bind_ok]
  dsimp only
  rw [hA, hB]

/-! ### Concrete runs: the C5 counterexample and the witnesses -/

section
attribute [local semireducible] Rat.add Rat.mul Rat.inv Rat.sub Rat.ofScientific

lemma baselineSkew_ge_one : ∀ kIdx i, (1 : ℚ) ≤ baselineSkew kIdx i := by
  intro kIdx i
  simp only [baselineSkew]
  split <;> norm_num

lemma baselineSkew_lt_two : ∀ kIdx i, baselineSkew kIdx i < 2 := by
  intro kIdx i
  simp only [baselineSkew]
  split <;> norm_num

lemma baselineSkew2_ge_one : ∀ kIdx i, (1 : ℚ) ≤ baselineSkew2 kIdx i := by
  intro kIdx i
  simp only [baselineSkew2]
  split <;> norm_num

/-- C5 counterexample: two calls of `relative_phase` on the same arguments,
with two different — but both valid, i.e. inside `[1, 2)` — realisations of
the random scalogram baseline, return different results.  The constant
baseline `1` ties all row sums, `argmin` picks the first scale and no peak is
reported, while the skewed baseline makes scale 2 the minimiser and the peaks
`[4, 7, 10]` are found; the outputs differ already in their first component.
Hence the output depends on the `np.random.sample` draw and repeated calls
are not bit-identical. -/
theorem relative_phase_two_calls_differ :
    (∀ kIdx i, (1 : ℚ) ≤ baselineOne kIdx i ∧ baselineOne kIdx i < 2) ∧
    (∀ kIdx i, (1 : ℚ) ≤ baselineSkew kIdx i ∧ baselineSkew kIdx i < 2) ∧
    relative_phase pcaTriv baselineOne baselineOne arr12 (some arr12) none ≠
      relative_phase pcaTriv baselineSkew baselineSkew arr12 (some arr12) none := by
  refine ⟨fun kIdx i => ⟨le_refl 1, by norm_num [baselineOne]⟩,
    fun kIdx i => ⟨baselineSkew_ge_one kIdx i, baselineSkew_lt_two kIdx i⟩, ?_⟩
  have hval : validate_vectors pcaTriv arr12 (some arr12) = Except.ok (sig12, sig12) := by
    decide
  have h1 : ampdCore baselineOne sig12 = Except.ok [] := by decide
  have h2 : ampdCore baselineSkew sig12 = Except.ok p12 := by decide
  intro h
  rw [relative_phase_run pcaTriv baselineOne baselineOne arr12 (some arr12) none
      sig12 sig12 [] [] hval h1 h1,
    relative_phase_run pcaTriv baselineSkew baselineSkew arr12 (some arr12) none
      sig12 sig12 p12 p12 hval h2 h2] at h
  injection h with h3
  have hfst := congrArg Prod.fst h3
  exact absurd hfst (by decide)

/-- Witness for C1: the amended characterisation evaluated on the concrete
signal `sig3` with the constant baseline. -/
theorem lms_entries_characterisation_witness :
    (∀ kIdx i, (1 : ℚ) ≤ baselineOne kIdx i) ∧ 1 ≤ sig3.length ∧
    (((local_maxima_scalogram baselineOne (detrend sig3)).length : ℤ) =
        ⌈(sig3.length : ℚ) / 2⌉ - 1 ∧
      (∀ row ∈ local_maxima_scalogram baselineOne (detrend sig3), row.length = sig3.length) ∧
      (∀ k, k ≤ numScales sig3.length → 1 ≤ k → ∀ i, i < sig3.length →
        ((lmsEntry baselineOne (detrend sig3) (k - 1) i = 0 ↔
            (k + 1 ≤ i ∧ i ≤ sig3.length - k ∧
             (detrend sig3).getD (i - k) 0 < (detrend sig3).getD i 0 ∧
             (detrend sig3).getD ((i + k) % sig3.length) 0 < (detrend sig3).getD i 0)) ∧
          (lmsEntry baselineOne (detrend sig3) (k - 1) i ≠ 0 →
            lmsEntry baselineOne (detrend sig3) (k - 1) i = baselineOne (k - 1) i ∧
            0 < lmsEntry baselineOne (detrend sig3) (k - 1) i)))) :=
  ⟨fun _ _ => le_refl 1, by decide,
    lms_entries_characterisation sig3 baselineOne (fun _ _ => le_refl 1) (by decide)⟩

/-- Witness for C2: the zero-deviation characterisation evaluated on `sig12`
with the skewed baseline. -/
theorem ampd_peaks_zero_std_characterisation_witness :
    validate_vector arr12 = Except.ok sig12 ∧
    (gammas baselineSkew (detrend sig12)).isEmpty = false ∧
    ((∀ j < (gammas baselineSkew (detrend sig12)).length,
        (gammas baselineSkew (detrend sig12)).getD
            (argminFirst (gammas baselineSkew (detrend sig12))) 0 ≤
          (gammas baselineSkew (detrend sig12)).getD j 0) ∧
      ampd_peaks baselineSkew arr12 = Except.ok
        ((List.range (detrend sig12).length).filter
          (fun i => decide (2 ≤ (columnUpTo baselineSkew (detrend sig12)
              (argminFirst (gammas baselineSkew (detrend sig12)) + 1) i).length ∧
            sampleVar (columnUpTo baselineSkew (detrend sig12)
              (argminFirst (gammas baselineSkew (detrend sig12)) + 1) i) = 0)))) :=
  ⟨by decide, by decide,
    ampd_peaks_zero_std_characterisation baselineSkew arr12 sig12 (by decide) (by decide)⟩

/-- Witness for C3: the output formula evaluated on `sig12` against itself
with the skewed baseline (peaks `[4, 7, 10]`, truncation length 2). -/
theorem relative_phase_formula_witness :
    validate_vectors pcaTriv arr12 (some arr12) = Except.ok (sig12, sig12) ∧
    ampdCore baselineSkew sig12 = Except.ok p12 ∧
    relative_phase pcaTriv baselineSkew baselineSkew arr12 (some arr12) none = Except.ok
      ((p12.take (min (min p12.length p12.length) (p12.length - 1))).map
         (fun (i : ℕ) => ((none : Option (List ℚ)).getD tBase12).getD i 0),
       (p12.take (min (min p12.length p12.length) (p12.length - 1))).map
         (fun (i : ℕ) => ((none : Option (List ℚ)).getD tBase12).getD i 0),
       (List.range (min (min p12.length p12.length) (p12.length - 1))).map
         (fun (j : ℕ) => 2 * Real.pi *
            (((p12.getD j 0 : ℝ) - (p12.getD j 0 : ℝ)) /
             ((p12.getD (j + 1) 0 : ℝ) - (p12.getD j 0 : ℝ))))) :=
  ⟨by decide, by decide,
    relative_phase_formula pcaTriv baselineSkew baselineSkew arr12 (some arr12) none
      sig12 sig12 p12 p12 (by decide) (by decide) (by decide)⟩

/-- Witness for C4: the three outputs of the run on `sig12` all have length
`min(3, 3, 2) = 2`. -/
theorem relative_phase_lengths_witness :
    validate_vectors pcaTriv arr12 (some arr12) = Except.ok (sig12, sig12) ∧
    ampdCore baselineSkew sig12 = Except.ok p12 ∧
    (((relPhaseCore p12 p12 ((none : Option (List ℚ)).getD tBase12)).1,
      (relPhaseCore p12 p12 ((none : Option (List ℚ)).getD tBase12)).2.1,
      (relPhaseCore p12 p12 ((none : Option (List ℚ)).getD tBase12)).2.2.map
        (fun (q : ℚ) => 2 * Real.pi * (q : ℝ))).1.length =
        min (min p12.length p12.length) (p12.length - 1) ∧
     ((relPhaseCore p12 p12 ((none : Option (List ℚ)).getD tBase12)).1,
      (relPhaseCore p12 p12 ((none : Option (List ℚ)).getD tBase12)).2.1,
      (relPhaseCore p12 p12 ((none : Option (List ℚ)).getD tBase12)).2.2.map
        (fun (q : ℚ) => 2 * Real.pi * (q : ℝ))).2.1.length =
        min (min p12.length p12.length) (p12.length - 1) ∧
     ((relPhaseCore p12 p12 ((none : Option (List ℚ)).getD tBase12)).1,
      (relPhaseCore p12 p12 ((none : Option (List ℚ)).getD tBase12)).2.1,
      (relPhaseCore p12 p12 ((none : Option (List ℚ)).getD tBase12)).2.2.map
        (fun (q : ℚ) => 2 * Real.pi * (q : ℝ))).2.2.length =
        min (min p12.length p12.length) (p12.length - 1)) := by
  refine ⟨by decide, by decide, ?_⟩
  have hres := relative_phase_run pcaTriv baselineSkew baselineSkew arr12 (some arr12) none
    sig12 sig12 p12 p12 (by decide) (by decide) (by decide)
  exact relative_phase_lengths pcaTriv baselineSkew baselineSkew arr12 (some arr12) none
    sig12 sig12 p12 p12 _ (by decide) (by decide) (by decide) hres

/-- Witness for C5 (amended): two distinct valid samplings that select the
same characteristic scale and are collision-free give identical outputs. -/
theorem relative_phase_sampling_stable_witness :
    validate_vectors pcaTriv arr12 (some arr12) = Except.ok (sig12, sig12) ∧
    argminFirst (gammas baselineSkew (detrend sig12)) =
      argminFirst (gammas baselineSkew2 (detrend sig12)) ∧
    noCollision baselineSkew (detrend sig12)
      (argminFirst (gammas baselineSkew (detrend sig12)) + 1) ∧
    noCollision baselineSkew2 (detrend sig12)
      (argminFirst (gammas baselineSkew2 (detrend sig12)) + 1) ∧
    relative_phase pcaTriv baselineSkew baselineSkew arr12 (some arr12) none =
      relative_phase pcaTriv baselineSkew2 baselineSkew2 arr12 (some arr12) none :=
  ⟨by decide, by decide, by decide, by decide,
    relative_phase_sampling_stable pcaTriv baselineSkew baselineSkew baselineSkew2 baselineSkew2
      arr12 (some arr12) none sig12 sig12 (by decide)
      baselineSkew_ge_one baselineSkew2_ge_one baselineSkew_ge_one baselineSkew2_ge_one
      (by decide) (by decide) (by decide) (by decide) (by decide) (by decide)⟩

/-- Witness for C6: stacking `sig3` with itself and calling the
single-argument form equals the two-argument call. -/
theorem relative_phase_two_column_split_witness :
    2 ≤ sig3.length ∧ sig3.length = sig3.length ∧
    relative_phase pcaTriv baselineOne baselineOne (stack2 sig3 sig3) none none =
      relative_phase pcaTriv baselineOne baselineOne ⟨[sig3.length], sig3⟩
        (some ⟨[sig3.length], sig3⟩) none :=
  ⟨by decide, rfl,
    relative_phase_two_column_split pcaTriv baselineOne baselineOne sig3 sig3 none
      (by decide) rfl⟩

/-- Witness for C7: a 3-D first argument with a 1-D second argument raises a
ValidationError, matching the characterisation. -/
theorem relative_phase_validation_error_iff_witness :
    (0 ∉ arr222.shape) ∧ (∀ y ∈ (some arr3 : Option NDArr), 0 ∉ y.shape) ∧
    (relative_phase pcaTriv baselineOne baselineOne arr222 (some arr3) none =
        Except.error PyErr.validation ↔
      ((some arr3 : Option NDArr) = none ∧
          ¬ (arr222.squeeze.ndim = 2 ∧ arr222.squeeze.shape.getD 1 0 = 2)) ∨
      ∃ x ∈ splitInputs arr222 (some arr3), notReducibleTo1D x) :=
  ⟨by decide,
    by
      intro y hy
      rw [Option.mem_def] at hy
      injection hy with h
      subst h
      decide,
    relative_phase_validation_error_iff pcaTriv baselineOne baselineOne arr222 (some arr3) none
      (by decide)
      (by
        intro y hy
        rw [Option.mem_def] at hy
        injection hy with h
        subst h
        decide)⟩

/-- Witness for C9: on the three-sample signal no peaks are found and
`relative_phase` returns three empty sequences. -/
theorem relative_phase_few_peaks_empty_witness :
    validate_vectors pcaTriv arr3 (some arr3) = Except.ok (sig3, sig3) ∧
    ampdCore baselineOne sig3 = Except.ok [] ∧
    (([] : List ℕ).length ≤ 1 ∨ ([] : List ℕ) = []) ∧
    relative_phase pcaTriv baselineOne baselineOne arr3 (some arr3) none =
      Except.ok ([], [], []) :=
  ⟨by decide, by decide, Or.inl (by decide),
    relative_phase_few_peaks_empty pcaTriv baselineOne baselineOne arr3 (some arr3) none
      sig3 sig3 [] [] (by decide) (by decide) (by decide) (Or.inl (by decide))⟩

/-- Witness for C10: on the three-sample signal the scalogram has one row,
the first scale is the minimiser, every column deviation is NaN, and the
peak set is empty. -/
theorem ampd_peaks_lambda_one_empty_witness :
    validate_vector arr3 = Except.ok sig3 ∧
    (gammas baselineOne (detrend sig3)).isEmpty = false ∧
    argminFirst (gammas baselineOne (detrend sig3)) = 0 ∧
    ((∀ i, npStd (columnUpTo baselineOne (detrend sig3) 1 i) = none) ∧
      ampd_peaks baselineOne arr3 = Except.ok []) :=
  ⟨by decide, by decide, by decide,
    ampd_peaks_lambda_one_empty baselineOne arr3 sig3 (by decide) (by decide) (by decide)⟩

end

end Pyphase
